import Mathlib

/-!
Verification of the biotech news agent (src/biotech_news_agent.py).

Strings are modelled as `List Char` (Python strings are sequences of code
points; all inputs of interest are within the ASCII/BMP range where
`Char.toLower` agrees with Python `str.lower`). Python slicing `s[:n]` with a
non-negative bound is `List.take n`. External effects (HTTP calls, the HF
pipeline, HTML parsing) are passed in as explicit oracle functions, so each
embedded function is a pure function of its inputs and the oracles.
-/

/-- Python strings, as lists of code points. -/
abbrev Str := List Char

/-- The whitespace class used by Python's `str.strip`, `str.split` and the
regex class `\s` on the ASCII range: space, tab, LF, CR, VT, FF. -/
def pyIsSpace (c : Char) : Bool :=
  c = ' ' || c = '\t' || c = '\n' || c = '\r' || c = '\x0b' || c = '\x0c'

/-- Python `str.strip()`: remove leading and trailing whitespace. -/
def pyStrip (s : Str) : Str :=
  ((s.dropWhile pyIsSpace).reverse.dropWhile pyIsSpace).reverse

/-- Python `str.lower()` (ASCII range). -/
def pyLower (s : Str) : Str := s.map Char.toLower

/-- Python substring test `needle in hay`. -/
def strContains (hay needle : Str) : Bool :=
  match hay with
  | [] => needle.isEmpty
  | _ :: t => needle.isPrefixOf hay || strContains t needle

/-- Python `sep.join(pieces)`. -/
def joinWith (sep : Str) : List Str → Str
  | [] => []
  | [x] => x
  | x :: y :: xs => x ++ sep ++ joinWith sep (y :: xs)

/-- Worker for `collapseWs`; the flag records whether the previous character
was whitespace (so a run is replaced by a single space). -/
def collapseWsAux : Bool → Str → Str
  | _, [] => []
  | prevWs, c :: cs =>
    if pyIsSpace c then
      if prevWs then collapseWsAux true cs else ' ' :: collapseWsAux true cs
    else c :: collapseWsAux false cs

/-- Python `re.sub(r"\s+", " ", s)`: each maximal whitespace run becomes one
space. -/
def collapseWs (s : Str) : Str := collapseWsAux false s

/-- Is this (optional) character a sentence terminator (`.`, `!`, `?`)? -/
def isTermChar : Option Char → Bool
  | some c => c = '.' || c = '!' || c = '?'
  | none => false

/-- Worker for `sentenceSplit`, a left-to-right scan of the input.
`skipping = true` while consuming the whitespace of a current regex match
(the `\s+` run); `cur` is the piece built so far, reversed, so its head is
the character just before the scan position (the regex lookbehind). -/
def sentAux : Bool → Str → Str → List Str
  | _, cur, [] => [cur.reverse]
  | true, cur, c :: cs =>
    if pyIsSpace c then sentAux true cur cs
    else sentAux false (c :: cur) cs
  | false, cur, c :: cs =>
    if pyIsSpace c && isTermChar cur.head? then
      cur.reverse :: sentAux true [] cs
    else sentAux false (c :: cur) cs

/-- Python `re.split(r"(?<=[.!?])\s+", text)`: split at each maximal
whitespace run that directly follows `.`, `!` or `?`. -/
def sentenceSplit (text : Str) : List Str := sentAux false [] text

/-- The extractive summary used by the summarizer fallbacks:
`" ".join(re.split(r"(?<=[.!?])\s+", text)[:2])` — first two sentences
joined with one space (truncation to `max_chars` happens at the call sites). -/
def extractive (text : Str) : Str :=
  joinWith [' '] ((sentenceSplit text).take 2)

/-- `score_article` (src/biotech_news_agent.py:136-146): 2 points per
keyword appearing case-insensitively in `title + " " + summary`, plus the
weighted signal words. -/
def score_article (title summary : Str) (keywords : List Str) : Nat :=
  let text := pyLower (title ++ ' ' :: summary)
  let s1 := keywords.foldl (fun s k => if strContains text (pyLower k) then s + 2 else s) 0
  [(("study").data, 1), (("trial").data, 2), (("approval").data, 3),
   (("FDA").data, 3), (("breakthrough").data, 2)].foldl
    (fun s wv => if strContains text (pyLower wv.1) then s + wv.2 else s) s1

/-- Spec-side formula (§4.3): 2 points per configured keyword found as a
case-insensitive substring of `title + " " + summary`, each counted once. -/
def keywordPoints (title summary : Str) (keywords : List Str) : Nat :=
  2 * keywords.countP (fun k => strContains (pyLower (title ++ ' ' :: summary)) (pyLower k))

/-- Spec-side formula (§4.3): the signal-word bonuses study=1, trial=2,
approval=3, FDA=3, breakthrough=2, case-insensitive, each at most once. -/
def signalPoints (title summary : Str) : Nat :=
  let text := pyLower (title ++ ' ' :: summary)
  (if strContains text ("study").data then 1 else 0) +
  (if strContains text ("trial").data then 2 else 0) +
  (if strContains text ("approval").data then 3 else 0) +
  (if strContains text ("fda").data then 3 else 0) +
  (if strContains text ("breakthrough").data then 2 else 0)

/-- Python truthiness of an optional string (`None` and `""` are falsy). -/
def truthy (o : Option Str) : Bool :=
  match o with
  | none => false
  | some s => !s.isEmpty

/-- The state of a `Summarizer` instance after `__init__`
(src/biotech_news_agent.py:150-161): the configured OpenAI key and whether
the HF pipeline object was created. The behaviour of the two external model
calls is supplied per call as oracles (`remoteCall`, `hfCall`), each
returning `none` when the call raises. -/
structure Summarizer where
  openai_key : Option Str
  hf_summarizer : Option Unit

/-- `Summarizer.__init__`: store the key from the environment; build the HF
pipeline only when no key is configured and the transformers import
succeeded (`HF_AVAILABLE`); `pipelineInit = none` models the pipeline
constructor raising. -/
def Summarizer.init (env_key : Option Str) (HF_AVAILABLE : Bool)
    (pipelineInit : Option Unit) : Summarizer :=
  { openai_key := env_key,
    hf_summarizer := if !truthy env_key && HF_AVAILABLE then pipelineInit else none }

/-- `Summarizer._hf_summarize` (src/biotech_news_agent.py:200-210): call the
pipeline on the first 8000 characters; on success truncate its
`summary_text`; on any exception return the first two sentences, truncated. -/
def Summarizer.hf_summarize (hfCall : Str → Option Str) (text : Str)
    (max_chars : Nat) : Str :=
  match hfCall (text.take 8000) with
  | some s => s.take max_chars
  | none => (extractive text).take max_chars

/-- `Summarizer._openai_summarize` (src/biotech_news_agent.py:176-198):
`remoteCall text` is the `content` of the chat-completion response, `none`
when the request/parse raises; on failure fall back to `_hf_summarize` when
a pipeline exists, else to the raw text truncated. -/
def Summarizer.openai_summarize (st : Summarizer) (remoteCall hfCall : Str → Option Str)
    (text : Str) (max_chars : Nat) : Str :=
  match remoteCall text with
  | some content => (pyStrip content).take max_chars
  | none =>
    match st.hf_summarizer with
    | some _ => Summarizer.hf_summarize hfCall text max_chars
    | none => text.take max_chars

/-- `Summarizer.summarize` (src/biotech_news_agent.py:163-174): empty text
is a no-op; otherwise strip, then dispatch on the configured capabilities
(`max_chars` defaults to 600 in the source; `run_agent` passes 280). -/
def Summarizer.summarize (st : Summarizer) (remoteCall hfCall : Str → Option Str)
    (text : Str) (max_chars : Nat := 600) : Str :=
  if text.isEmpty then []
  else
    let t := pyStrip text
    if truthy st.openai_key then st.openai_summarize remoteCall hfCall t max_chars
    else
      match st.hf_summarizer with
      | some _ => Summarizer.hf_summarize hfCall t max_chars
      | none => (extractive t).take max_chars

/-- `CONFIG["MAX_ARTICLES"]` (src/biotech_news_agent.py:87). -/
def MAX_ARTICLES : Nat := 10

/-- Is `c` allowed after the first character of a URL scheme? -/
def isSchemeChar (c : Char) : Bool :=
  c.isAlphanum || c = '+' || c = '-' || c = '.'

/-- Does `pre` have the shape of a URL scheme (a letter followed by
letters, digits, `+`, `-`, `.`)? -/
def validScheme (pre : Str) : Bool :=
  match pre with
  | [] => false
  | c :: cs => c.isAlpha && cs.all isSchemeChar

/-- Drop a leading `scheme:` from a URL, as `urllib.parse.urlparse` does. -/
def dropScheme (url : Str) : Str :=
  let pre := url.takeWhile (fun c => c != ':')
  if pre.length < url.length && validScheme pre then url.drop (pre.length + 1) else url

/-- `urlparse(url).netloc`: when the URL (after an optional scheme) starts
with `//`, the text up to the next `/`, `?` or `#`; otherwise empty. -/
def netloc (url : Str) : Str :=
  let rest := dropScheme url
  if rest.take 2 = ("//").data then
    (rest.drop 2).takeWhile (fun c => c != '/' && c != '?' && c != '#')
  else []

/-- One entry of the `items` list handed to `build_linkedin_post`
(built at src/biotech_news_agent.py:314-321; the `source` value there is
never `None`, an empty string models a falsy source). -/
structure PostItem where
  title : Str
  summary : Str
  link : Str
  source : Str

/-- `it.get('source') or urlparse(it['link']).netloc`
(src/biotech_news_agent.py:222). -/
def itemSrc (it : PostItem) : Str :=
  if it.source.isEmpty then netloc it.link else it.source

/-- The header line of the post, with the current UTC date already
formatted (`datetime.utcnow().strftime("%Y-%m-%d")`). -/
def headerOf (now_date : Str) : Str :=
  ("Daily biotech news roundup — ").data ++ now_date ++ ("\n\n").data

/-- A first-pass bullet line (src/biotech_news_agent.py:218-224). -/
def firstPassLine (it : PostItem) : Str :=
  ("• ").data ++ pyStrip (collapseWs it.title) ++ (" (").data ++ itemSrc it ++
    (") — ").data ++ pyStrip (collapseWs it.summary) ++ (" ").data ++ it.link

/-- The first-pass rendering: header plus up to `MAX_ARTICLES` bullet
lines, joined by blank lines (src/biotech_news_agent.py:216-225). -/
def firstPass (now_date : Str) (items : List PostItem) : Str :=
  joinWith (("\n\n").data) (headerOf now_date :: (items.take MAX_ARTICLES).map firstPassLine)

/-- A second-pass (compact) bullet line with its trailing blank line
(src/biotech_news_agent.py:230). -/
def secondPassLine (it : PostItem) : Str :=
  ("• ").data ++ it.title ++ (" — ").data ++ it.summary ++ (" ").data ++ it.link ++ ("\n\n").data

/-- The second-pass rendering: a rebuilt header plus the first 5 items in
the compact format (src/biotech_news_agent.py:228-230). -/
def secondPass (now_date : Str) (items : List PostItem) : Str :=
  (items.take 5).foldl (fun p it => p ++ secondPassLine it) (headerOf now_date)

/-- `build_linkedin_post` (src/biotech_news_agent.py:214-232); both calls
of `datetime.utcnow()` are modelled by the single `now_date`. -/
def build_linkedin_post (now_date : Str) (items : List PostItem)
    (max_chars_total : Nat := 1200) : Str :=
  let post := firstPass now_date items
  if max_chars_total < post.length then (secondPass now_date items).take max_chars_total
  else post

/-- A raw feed entry as consumed by the collection loop
(src/biotech_news_agent.py:278-301). `published_parsed` is the feed's
parsed publish/update time as seconds (the value of
`mktime(entry.get('published_parsed') or entry.get('updated_parsed'))`),
`none` when neither field is present. -/
structure RawEntry where
  link : Option Str
  id : Option Str
  title : Str
  summary : Str
  published_parsed : Option Int
  source : Option Str
deriving DecidableEq

/-- Python truthiness coercion for the `or` chains: `some []` (empty
string) collapses to `none`. -/
def truthyOpt (o : Option Str) : Option Str :=
  match o with
  | some s => if s.isEmpty then none else some s
  | none => none

/-- `link = entry.get('link') or entry.get('id')` followed by the
`if not link` guard: the entry's identity key, `none` when it has neither
a truthy link nor a truthy id (src/biotech_news_agent.py:280-281). -/
def entryKey (e : RawEntry) : Option Str :=
  match truthyOpt e.link with
  | some l => some l
  | none => truthyOpt e.id

/-- A collected item (the dict appended at
src/biotech_news_agent.py:295-301). `key` is the `link` value, which is
also the deduplication key. -/
structure NewsRec where
  key : Str
  title : Str
  summary_raw : Str
  published : Int
  source : Option Str
deriving DecidableEq

/-- The loop state: the `seen_urls` set and the `collected` list. -/
structure CollectState where
  seen_urls : List Str
  collected : List NewsRec
deriving DecidableEq

/-- The body of the entry loop (src/biotech_news_agent.py:278-301) for one
entry: skip keyless or already-seen entries; record the key in `seen_urls`;
then apply the time filter (`pub_dt < cutoff` drops the entry) and collect.
`getText` is the external `BeautifulSoup(...).get_text()` markup stripper;
`now` is `datetime.utcnow()`. `mkRec` is the dict literal appended to
`collected` (src/biotech_news_agent.py:295-301). -/
def mkRec (getText : Str → Str) (now : Int) (e : RawEntry) (link : Str) : NewsRec :=
  { key := link, title := e.title,
    summary_raw := if e.summary.isEmpty then [] else getText e.summary,
    published := e.published_parsed.getD now, source := e.source }

/-- One step of the entry loop: skip keyless or already-seen entries;
record the key in `seen_urls` before the time filter; drop the entry when
`pub_dt < cutoff`, else collect it. -/
def processEntry (getText : Str → Str) (now cutoff : Int)
    (st : CollectState) (e : RawEntry) : CollectState :=
  match entryKey e with
  | none => st
  | some link =>
    if link ∈ st.seen_urls then st
    else if e.published_parsed.getD now < cutoff then
      { seen_urls := link :: st.seen_urls, collected := st.collected }
    else
      { seen_urls := link :: st.seen_urls,
        collected := st.collected ++ [mkRec getText now e link] }

/-- The full collection phase over the flattened stream of feed entries,
with `cutoff = now - window` (src/biotech_news_agent.py:268-301; `window`
is `TIME_WINDOW_HOURS` as seconds). -/
def run_collect (getText : Str → Str) (now window : Int)
    (entries : List RawEntry) : List NewsRec :=
  (entries.foldl (processEntry getText now (now - window)) ⟨[], []⟩).collected

/-- `post_to_linkedin` (src/biotech_news_agent.py:235-259). `httpResp` is
the outcome of `requests.post`: `Except.error` when the request raises a
transport exception (there is no `try` around it, so it propagates),
otherwise the status code and response body. -/
def post_to_linkedin (httpResp : Except Unit (Nat × Str)) : Except Unit (Bool × Str) :=
  match httpResp with
  | .error e => .error e
  | .ok (status, body) =>
    if status = 201 || status = 200 then .ok (true, body) else .ok (false, body)

/-- The tail of `run_agent` after both artifact files are written
(src/biotech_news_agent.py:342-350): attempt the publish only when both
credentials are truthy; an exception escaping `post_to_linkedin` aborts the
run (`Except.error`), otherwise the run completes with the two artifacts
and the reported outcome. -/
def run_agent_publish (jsonArtifact postArtifact : Str) (token urn : Option Str)
    (httpResp : Except Unit (Nat × Str)) :
    Except Unit (Str × Str × Option (Bool × Str)) :=
  if truthy token && truthy urn then
    match post_to_linkedin httpResp with
    | .error e => .error e
    | .ok r => .ok (jsonArtifact, postArtifact, some r)
  else .ok (jsonArtifact, postArtifact, none)

/-- An enriched article record as sorted at src/biotech_news_agent.py:324:
`published` is an ISO-8601 string (`isoformat()`), compared
lexicographically, which for that format is chronological order. -/
structure Enriched where
  title : Str
  link : Str
  published : Str
  summary : Str
  score : Nat
  source : Str
deriving DecidableEq

/-- Lexicographic `<=` on strings by code point, as in Python. -/
def strLe : Str → Str → Bool
  | [], _ => true
  | _ :: _, [] => false
  | a :: as, b :: bs => if a < b then true else if b < a then false else strLe as bs

/-- The ordering used by
`enriched.sort(key=lambda x: (x['score'], x['published']), reverse=True)`:
`a` may precede `b` iff `(b.score, b.published) <= (a.score, a.published)`
lexicographically (descending sort). -/
def keyLE (a b : Enriched) : Bool :=
  if b.score < a.score then true
  else if a.score < b.score then false
  else strLe b.published a.published

/-- The ranking step (src/biotech_news_agent.py:324). Python `list.sort`
is a stable sort; `reverse=True` sorts descending while keeping elements
with equal keys in their original order, which is exactly a stable merge
sort with `keyLE`. -/
def rank_items (l : List Enriched) : List Enriched := l.mergeSort keyLE

/-! Concrete fixtures used by the counterexamples and witnesses below. -/

/-- A short ranked item for the renderer scenarios. -/
def cSmallItem : PostItem := ⟨("T").data, ("S").data, ("L").data, ("SRC").data⟩

/-- A ranked item with a 671-character title, sized so that the 7-item
first pass below is exactly 1500 characters long. -/
def cBigItem : PostItem := ⟨List.replicate 671 'a', ("S").data, ("L").data, ("SRC").data⟩

/-- Seven ranked items whose first-pass rendering is exactly 1500
characters while the second pass (header + first 5 compact lines) is only
96 characters. -/
def cItems : List PostItem :=
  [cSmallItem, cSmallItem, cSmallItem, cSmallItem, cSmallItem, cBigItem, cBigItem]

/-- A feed entry dated 7200 seconds after `now = 1000000`. -/
def futureEntry : RawEntry :=
  { link := some (("http://example.com/a").data), id := none, title := ("T").data,
    summary := [], published_parsed := some 1007200, source := none }

/-- An in-window entry with its own key, first in the C10 witness stream. -/
def preEntry : RawEntry :=
  { link := some (("http://pre.com/p").data), id := none, title := ("P").data,
    summary := [], published_parsed := some 950000, source := none }

/-- An entry with key `http://dup.com/x` dated before the cutoff. -/
def staleEntry : RawEntry :=
  { link := some (("http://dup.com/x").data), id := none, title := ("OLD").data,
    summary := [], published_parsed := some 100, source := none }

/-- A later entry with the same key `http://dup.com/x`, inside the window. -/
def freshEntry : RawEntry :=
  { link := some (("http://dup.com/x").data), id := none, title := ("NEW").data,
    summary := [], published_parsed := some 999000, source := none }

/-- An entry with neither a link nor an id. -/
def keylessEntry : RawEntry :=
  { link := none, id := none, title := ("K").data,
    summary := [], published_parsed := some 999000, source := none }

/-- Another in-window entry with the key `http://dup.com/x`. -/
def dupEntry : RawEntry :=
  { link := some (("http://dup.com/x").data), id := none, title := ("DUP").data,
    summary := [], published_parsed := some 998000, source := none }

/-- An entry with no parseable publish time. -/
def noTimeEntry : RawEntry :=
  { link := some (("http://notime.com/n").data), id := none, title := ("N").data,
    summary := [], published_parsed := none, source := none }

/-- Two enriched items with equal score and equal publish time. -/
def eItemA : Enriched :=
  ⟨("A").data, ("http://a").data, ("2026-10-12T00:00:00").data, ("sa").data, 5, ("src").data⟩

/-- Second item of the equal-key pair. -/
def eItemB : Enriched :=
  ⟨("B").data, ("http://b").data, ("2026-10-12T00:00:00").data, ("sb").data, 5, ("src").data⟩

/-! Helper lemmas. -/

/-- Preservation of an invariant along `List.foldl`, with the step
hypothesis restricted to members of the list. -/
theorem foldl_preserve {α β : Type} (f : β → α → β) (M : β → Prop) :
    ∀ (l : List α) (b : β), M b → (∀ b' a, a ∈ l → M b' → M (f b' a)) →
      M (l.foldl f b) := by
  intro l
  induction l with
  | nil => intro b hb _; exact hb
  | cons x t ih =>
    intro b hb hf
    exact ih (f b x) (hf b x (List.mem_cons_self x t) hb)
      (fun b' a ha hb' => hf b' a (List.mem_cons_of_mem x ha) hb')

/-- Truncation respects the cap. -/
theorem take_length_le (n : Nat) (l : Str) : (l.take n).length ≤ n := by
  simp [List.length_take]

/-- Claim C2: every tier of `summarize` truncates its result to
`max_chars`, so the returned string never exceeds the cap, for any input
text, any cap, and any behaviour of the external calls. -/
theorem C2_summarize_length_le (st : Summarizer) (remoteCall hfCall : Str → Option Str)
    (text : Str) (n : Nat) :
    (Summarizer.summarize st remoteCall hfCall text n).length ≤ n := by
  unfold Summarizer.summarize Summarizer.openai_summarize Summarizer.hf_summarize
  dsimp only
  split
  · simp
  · split
    · split
      · exact take_length_le n _
      · split
        · split
          · exact take_length_le n _
          · exact take_length_le n _
        · exact take_length_le n _
    · split
      · split
        · exact take_length_le n _
        · exact take_length_le n _
      · exact take_length_le n _

/-- Folding the keyword loop of `score_article` counts 2 per matching
keyword. -/
theorem foldl_keyword_count (p : Str → Bool) :
    ∀ (l : List Str) (n : Nat),
      l.foldl (fun s k => if p k then s + 2 else s) n = n + 2 * l.countP p := by
  intro l
  induction l with
  | nil => simp
  | cons a t ih =>
    intro n
    simp only [List.foldl_cons, List.countP_cons, ih]
    cases h : p a
    · simp only [h, Bool.false_eq_true, if_false]
      omega
    · simp only [h, if_true]
      omega

/-- Claim C4: the score is 2 points per keyword occurring
case-insensitively in `title + " " + summary` plus the signal-word bonuses
study=1, trial=2, approval=3, FDA=3, breakthrough=2, each at most once; on
the spec's scenario the score is 14. -/
theorem C4_score_formula :
    (∀ (title summary : Str) (keywords : List Str),
      score_article title summary keywords =
        keywordPoints title summary keywords + signalPoints title summary) ∧
    score_article ("FDA approves new CRISPR trial").data
      ("A breakthrough study shows...").data
      [("CRISPR").data, ("FDA").data, ("trial").data] = 14 := by
  constructor
  · intro title summary keywords
    simp only [score_article, keywordPoints, signalPoints, foldl_keyword_count, List.foldl]
    have hfda : pyLower (("FDA").data) = ("fda").data := rfl
    have hstudy : pyLower (("study").data) = ("study").data := rfl
    have htrial : pyLower (("trial").data) = ("trial").data := rfl
    have happ : pyLower (("approval").data) = ("approval").data := rfl
    have hbreak : pyLower (("breakthrough").data) = ("breakthrough").data := rfl
    rw [hfda, hstudy, htrial, happ, hbreak]
    split_ifs <;> omega
  · decide

/-- Claim C9: with no remote credential configured and the local
capability unavailable (`HF_AVAILABLE = false`), `summarize(text, 280)`
is the first two sentences of the stripped text, joined by a space and
truncated to 280 characters. -/
theorem C9_extractive_tier (env_key : Option Str) (pipelineInit : Option Unit)
    (remoteCall hfCall : Str → Option Str) (text : Str)
    (hkey : truthy env_key = false) :
    Summarizer.summarize (Summarizer.init env_key false pipelineInit)
      remoteCall hfCall text 280 = (extractive (pyStrip text)).take 280 := by
  unfold Summarizer.summarize Summarizer.init
  simp only [hkey, Bool.not_false, Bool.and_false, if_neg (by simp : ¬ (false = true))]
  split
  · rename_i hempty
    have : text = [] := List.isEmpty_iff.mp hempty
    subst this
    decide
  · rfl

/-- Witness for C9 at a concrete text. -/
theorem C9_extractive_tier_witness :
    Summarizer.summarize (Summarizer.init none false none)
      (fun _ => none) (fun _ => none)
      ("  First one. Second two. Third three.").data 280 =
      ("First one. Second two.").data :=
  (C9_extractive_tier none none (fun _ => none) (fun _ => none)
    ("  First one. Second two. Third three.").data rfl).trans (by decide)

/-- Claim C1 fails on the code: with a remote credential configured the
constructor never builds the HF pipeline, so when the remote call raises,
`summarize` returns the raw stripped text truncated — not the local tier's
output (even though the HF library is available and the pipeline would
succeed) and not the extractive two-sentence summary. -/
theorem C1_counterexample :
    Summarizer.summarize (Summarizer.init (some (("k").data)) true (some ()))
      (fun _ => none) (fun _ => some (("Local model summary.").data))
      (("Alpha report. Beta result. Gamma data.").data) 280 =
      ("Alpha report. Beta result. Gamma data.").data ∧
    ("Alpha report. Beta result. Gamma data.").data ≠
      ((("Local model summary.").data).take 280) ∧
    ("Alpha report. Beta result. Gamma data.").data ≠
      ((extractive (("Alpha report. Beta result. Gamma data.").data)).take 280) := by
  decide

/-- Claim C1, amended: when a credential is configured the local capability
is never initialized, so a remote failure falls back to the raw stripped
text truncated to the cap; the fall-through local tier → extractive tier
happens only when no credential is configured and the pipeline was built:
then a local failure yields the extractive summary truncated to the cap. -/
theorem C1_amended_fallback :
    (∀ (k : Str) (HFA : Bool) (pinit : Option Unit) (rc hc : Str → Option Str)
      (text : Str) (n : Nat), k ≠ [] → rc (pyStrip text) = none →
      Summarizer.summarize (Summarizer.init (some k) HFA pinit) rc hc text n =
        (pyStrip text).take n) ∧
    (∀ (env_key : Option Str) (rc hc : Str → Option Str) (text : Str) (n : Nat),
      truthy env_key = false → hc ((pyStrip text).take 8000) = none →
      Summarizer.summarize (Summarizer.init env_key true (some ())) rc hc text n =
        (extractive (pyStrip text)).take n) := by
  constructor
  · intro k HFA pinit rc hc text n hk hrc
    unfold Summarizer.summarize Summarizer.init Summarizer.openai_summarize
    have htr : truthy (some k) = true := by
      simp [truthy, List.isEmpty_iff, hk]
    simp only [htr, Bool.not_true, Bool.false_and, if_neg (by simp : ¬ (false = true)),
      if_pos rfl, hrc]
    split
    · rename_i hempty
      have : text = [] := List.isEmpty_iff.mp hempty
      subst this
      simp [pyStrip]
    · rfl
  · intro env_key rc hc text n hkey hhc
    unfold Summarizer.summarize Summarizer.init Summarizer.hf_summarize
    simp only [hkey, Bool.not_false, Bool.true_and, if_pos rfl, hhc]
    split
    · rename_i hempty
      have htext : text = [] := List.isEmpty_iff.mp hempty
      subst htext
      have hex : extractive (pyStrip ([] : Str)) = [] := rfl
      simp [hex]
    · rfl

/-- Witness for the amended C1 on concrete inputs: a remote failure with a
configured credential returns the raw text; a local failure without a
credential returns the extractive summary. -/
theorem C1_amended_fallback_witness :
    Summarizer.summarize (Summarizer.init (some (("k").data)) true (some ()))
      (fun _ => none) (fun _ => none) ("Alpha rep. Beta res. Gamma dat.").data 280 =
      ("Alpha rep. Beta res. Gamma dat.").data ∧
    Summarizer.summarize (Summarizer.init none true (some ()))
      (fun _ => none) (fun _ => none) ("Alpha rep. Beta res. Gamma dat.").data 280 =
      ("Alpha rep. Beta res.").data := by
  constructor
  · exact (C1_amended_fallback.1 (("k").data) true (some ()) (fun _ => none)
      (fun _ => none) ("Alpha rep. Beta res. Gamma dat.").data 280
      (by decide) rfl).trans (by decide)
  · exact (C1_amended_fallback.2 none (fun _ => none) (fun _ => none)
      ("Alpha rep. Beta res. Gamma dat.").data 280 rfl rfl).trans (by decide)

set_option maxRecDepth 40000 in
/-- Claim C3 fails on the code: `post[:max_chars_total]` caps the second
pass but does not pad it, so the spec's scenario (7 ranked items,
`maxItems = 10`, `maxCharsTotal = 1200`, first pass exactly 1500
characters) can produce an output strictly shorter than 1200 when the
5-item compact pass is already short. -/
theorem C3_counterexample :
    (firstPass (("2026-10-12").data) cItems).length = 1500 ∧
    cItems.length = 7 ∧
    (build_linkedin_post (("2026-10-12").data) cItems 1200).length ≠ 1200 := by
  decide

/-- Claim C3, amended: whenever the first pass exceeds `maxCharsTotal` the
renderer discards it, rebuilds header plus at most the first 5 items in the
compact format, and hard-truncates to AT MOST `maxCharsTotal` characters —
the length is exactly `min maxCharsTotal (second pass length)`, so it
equals `maxCharsTotal` only when the second pass itself still overflows. -/
theorem C3_amended_second_pass (now_date : Str) (items : List PostItem) (n : Nat)
    (h : n < (firstPass now_date items).length) :
    build_linkedin_post now_date items n = (secondPass now_date items).take n ∧
    (build_linkedin_post now_date items n).length =
      min n (secondPass now_date items).length := by
  unfold build_linkedin_post
  rw [if_pos h]
  exact ⟨rfl, by simp [List.length_take]⟩

set_option maxRecDepth 40000 in
/-- Witness for the amended C3: on the 7-item scenario with a 1500-long
first pass, the result is the truncated second pass, of length 96. -/
theorem C3_amended_second_pass_witness :
    build_linkedin_post (("2026-10-12").data) cItems 1200 =
      (secondPass (("2026-10-12").data) cItems).take 1200 ∧
    (build_linkedin_post (("2026-10-12").data) cItems 1200).length = 96 := by
  have h := C3_amended_second_pass (("2026-10-12").data) cItems 1200 (by decide)
  exact ⟨h.1, h.2.trans (by decide)⟩

/-- Claim C8 fails on the code: `post_to_linkedin` performs `requests.post`
with no `try`, so a transport-level exception propagates into `run_agent`
and aborts the run, contrary to "publish failure is never fatal". -/
theorem C8_counterexample :
    (run_agent_publish (("record").data) (("post").data)
      (some (("tok").data)) (some (("urn").data))
      (Except.error ())).isOk = false := by
  rfl

/-- Claim C8, amended: any publish outcome that surfaces as an HTTP
response — success or any error status — is reported in the result and is
not fatal: the run completes and both previously written artifacts are
returned unchanged. Only a transport-level exception aborts the run. -/
theorem C8_amended_publish (jsonArtifact postArtifact : Str) (token urn : Option Str)
    (status : Nat) (body : Str) :
    run_agent_publish jsonArtifact postArtifact token urn (Except.ok (status, body)) =
      Except.ok (jsonArtifact, postArtifact,
        if truthy token && truthy urn then
          some (if status = 201 || status = 200 then (true, body) else (false, body))
        else none) := by
  by_cases h : (truthy token && truthy urn) = true
  · by_cases hs : (status = 201 || status = 200) = true
    · simp [run_agent_publish, post_to_linkedin, h, hs]
    · simp [run_agent_publish, post_to_linkedin, h, hs]
  · simp [run_agent_publish, post_to_linkedin, h]

/-- A keyless entry leaves the loop state unchanged. -/
theorem processEntry_keyless (gt : Str → Str) (now cutoff : Int)
    (st : CollectState) (e : RawEntry) (hk : entryKey e = none) :
    processEntry gt now cutoff st e = st := by
  simp only [processEntry, hk]

/-- An entry whose key was already seen leaves the loop state unchanged. -/
theorem processEntry_seen (gt : Str → Str) (now cutoff : Int)
    (st : CollectState) (e : RawEntry) (k : Str) (hk : entryKey e = some k)
    (hmem : k ∈ st.seen_urls) :
    processEntry gt now cutoff st e = st := by
  simp only [processEntry, hk, if_pos hmem]

/-- Processing an entry never removes keys from `seen_urls`. -/
theorem seen_subset_processEntry (gt : Str → Str) (now cutoff : Int)
    (st : CollectState) (e : RawEntry) :
    st.seen_urls ⊆ (processEntry gt now cutoff st e).seen_urls := by
  cases hk : entryKey e with
  | none => simp [processEntry, hk]
  | some k =>
    by_cases hmem : k ∈ st.seen_urls
    · simp [processEntry, hk, hmem]
    · simp only [processEntry, hk, if_neg hmem]
      split
      · exact fun x hx => List.mem_cons_of_mem _ hx
      · exact fun x hx => List.mem_cons_of_mem _ hx

/-- Processing an entry whose key is `k` puts `k` into `seen_urls`
(before the time filter is consulted). -/
theorem key_mem_seen_processEntry (gt : Str → Str) (now cutoff : Int)
    (st : CollectState) (e : RawEntry) (k : Str) (hk : entryKey e = some k) :
    k ∈ (processEntry gt now cutoff st e).seen_urls := by
  by_cases hmem : k ∈ st.seen_urls
  · simp [processEntry, hk, hmem]
  · simp only [processEntry, hk, if_neg hmem]
    split
    · exact List.mem_cons_self _ _
    · exact List.mem_cons_self _ _

/-- `seen_urls` membership is preserved along the whole fold. -/
theorem seen_foldl_mono (gt : Str → Str) (now cutoff : Int)
    (l : List RawEntry) (st : CollectState) (k : Str) (h : k ∈ st.seen_urls) :
    k ∈ (l.foldl (processEntry gt now cutoff) st).seen_urls :=
  foldl_preserve _ (fun st' => k ∈ st'.seen_urls) l st h
    (fun st' e _ h' => seen_subset_processEntry gt now cutoff st' e h')

/-- Once some entry of the stream carries key `k`, the folded state has
`k` in `seen_urls`. -/
theorem key_seen_after_foldl (gt : Str → Str) (now cutoff : Int) :
    ∀ (l : List RawEntry) (st : CollectState) (e1 : RawEntry) (k : Str),
      e1 ∈ l → entryKey e1 = some k →
      k ∈ (l.foldl (processEntry gt now cutoff) st).seen_urls := by
  intro l
  induction l with
  | nil => intro st e1 k h; cases h
  | cons x t ih =>
    intro st e1 k hmem hk
    rw [List.foldl_cons]
    rcases List.mem_cons.mp hmem with h | h
    · subst h
      exact seen_foldl_mono gt now cutoff t _ k
        (key_mem_seen_processEntry gt now cutoff st e1 k hk)
    · exact ih _ e1 k h hk

/-- Step preservation for the dedup invariant: collected keys are nodup
and all of them are in `seen_urls`. -/
theorem nodup_inv_step (gt : Str → Str) (now cutoff : Int)
    (st : CollectState) (e : RawEntry)
    (h1 : (st.collected.map NewsRec.key).Nodup)
    (h2 : ∀ r ∈ st.collected, r.key ∈ st.seen_urls) :
    ((processEntry gt now cutoff st e).collected.map NewsRec.key).Nodup ∧
    ∀ r ∈ (processEntry gt now cutoff st e).collected,
      r.key ∈ (processEntry gt now cutoff st e).seen_urls := by
  cases hk : entryKey e with
  | none => simp only [processEntry, hk]; exact ⟨h1, h2⟩
  | some k =>
    by_cases hmem : k ∈ st.seen_urls
    · simp only [processEntry, hk, if_pos hmem]; exact ⟨h1, h2⟩
    · by_cases hcut : e.published_parsed.getD now < cutoff
      · simp only [processEntry, hk, if_neg hmem, if_pos hcut]
        exact ⟨h1, fun r hr => List.mem_cons_of_mem _ (h2 r hr)⟩
      · simp only [processEntry, hk, if_neg hmem, if_neg hcut]
        constructor
        · simp only [List.map_append, List.map_cons, List.map_nil]
          rw [List.nodup_append]
          refine ⟨h1, List.nodup_singleton _, ?_⟩
          intro a ha hb
          simp only [List.mem_singleton] at hb
          subst hb
          rcases List.mem_map.mp ha with ⟨r, hr, hkey⟩
          exact hmem (hkey ▸ h2 r hr)
        · intro r hr
          rcases List.mem_append.mp hr with hh | hh
          · exact List.mem_cons_of_mem _ (h2 r hh)
          · simp only [List.mem_singleton] at hh
            subst hh
            exact List.mem_cons_self _ _

/-- Claim C6: no two collected items share an identity key; an entry with
neither a truthy link nor a truthy id contributes nothing; and an entry
whose key already occurred earlier in the stream contributes nothing
(only the first-encountered occurrence can survive). -/
theorem C6_dedup :
    (∀ (gt : Str → Str) (now window : Int) (entries : List RawEntry),
      ((run_collect gt now window entries).map NewsRec.key).Nodup) ∧
    (∀ (gt : Str → Str) (now window : Int) (pre post : List RawEntry) (e : RawEntry),
      entryKey e = none →
      run_collect gt now window (pre ++ e :: post) =
        run_collect gt now window (pre ++ post)) ∧
    (∀ (gt : Str → Str) (now window : Int) (pre post : List RawEntry)
      (e : RawEntry) (k : Str),
      entryKey e = some k → (∃ e1 ∈ pre, entryKey e1 = some k) →
      run_collect gt now window (pre ++ e :: post) =
        run_collect gt now window (pre ++ post)) := by
  refine ⟨?_, ?_, ?_⟩
  · intro gt now window entries
    exact (foldl_preserve _
      (fun st => (st.collected.map NewsRec.key).Nodup ∧
        ∀ r ∈ st.collected, r.key ∈ st.seen_urls)
      entries ⟨[], []⟩ ⟨by simp, by simp⟩
      (fun st e _ h => nodup_inv_step gt now (now - window) st e h.1 h.2)).1
  · intro gt now window pre post e hk
    unfold run_collect
    rw [List.foldl_append, List.foldl_append, List.foldl_cons,
      processEntry_keyless gt now (now - window) _ e hk]
  · intro gt now window pre post e k hk hpre
    unfold run_collect
    rw [List.foldl_append, List.foldl_append, List.foldl_cons]
    rcases hpre with ⟨e1, he1, hke1⟩
    rw [processEntry_seen gt now (now - window) _ e k hk
      (key_seen_after_foldl gt now (now - window) pre ⟨[], []⟩ e1 k he1 hke1)]

/-- Witness for C6 on concrete streams: a keyless entry is dropped, and a
later duplicate of `http://dup.com/x` contributes nothing. -/
theorem C6_dedup_witness :
    run_collect (fun s => s) 1000000 172800 [preEntry, keylessEntry, freshEntry] =
      run_collect (fun s => s) 1000000 172800 [preEntry, freshEntry] ∧
    run_collect (fun s => s) 1000000 172800 [freshEntry, dupEntry] =
      run_collect (fun s => s) 1000000 172800 [freshEntry] := by
  constructor
  · exact C6_dedup.2.1 (fun s => s) 1000000 172800 [preEntry] [freshEntry] keylessEntry rfl
  · exact C6_dedup.2.2 (fun s => s) 1000000 172800 [freshEntry] [] dupEntry
      (("http://dup.com/x").data) rfl ⟨freshEntry, by decide, rfl⟩

/-- Step preservation for the window lower bound on collected items. -/
theorem window_inv_step (gt : Str → Str) (now cutoff : Int)
    (st : CollectState) (e : RawEntry)
    (h : ∀ r ∈ st.collected, cutoff ≤ r.published) :
    ∀ r ∈ (processEntry gt now cutoff st e).collected, cutoff ≤ r.published := by
  cases hk : entryKey e with
  | none => simpa [processEntry, hk] using h
  | some k =>
    by_cases hmem : k ∈ st.seen_urls
    · simpa [processEntry, hk, hmem] using h
    · by_cases hcut : e.published_parsed.getD now < cutoff
      · simpa [processEntry, hk, hmem, hcut] using h
      · simp only [processEntry, hk, if_neg hmem, if_neg hcut]
        intro r hr
        rcases List.mem_append.mp hr with hh | hh
        · exact h r hh
        · simp only [List.mem_singleton] at hh
          subst hh
          simp only [mkRec]
          omega

/-- Claim C7 fails on the code: the loop only checks `pub_dt < cutoff`,
so an entry dated 7200 seconds in the future survives the filter with
`publishedAt > now`. -/
theorem C7_counterexample :
    (run_collect (fun s => s) 1000000 172800 [futureEntry]).map NewsRec.published =
      [1007200] ∧ ¬ ((1007200 : Int) ≤ 1000000) := by
  decide

/-- Claim C7, amended: every surviving item has
`publishedAt ≥ now − window` (no upper bound is enforced, so future-dated
entries also pass), and an entry with no parseable published time is
defaulted to `now`, which always passes the window check. -/
theorem C7_amended_window :
    (∀ (gt : Str → Str) (now window : Int) (entries : List RawEntry),
      ∀ r ∈ run_collect gt now window entries, now - window ≤ r.published) ∧
    (∀ (gt : Str → Str) (now window : Int) (st : CollectState)
      (e : RawEntry) (k : Str),
      0 ≤ window → e.published_parsed = none → entryKey e = some k →
      k ∉ st.seen_urls →
      (processEntry gt now (now - window) st e).collected =
        st.collected ++ [mkRec gt now e k]) := by
  constructor
  · intro gt now window entries
    exact foldl_preserve _
      (fun st => ∀ r ∈ st.collected, now - window ≤ r.published)
      entries ⟨[], []⟩ (by simp)
      (fun st e _ h => window_inv_step gt now (now - window) st e h)
  · intro gt now window st e k hw hnone hk hmem
    have hcut : ¬ (e.published_parsed.getD now < now - window) := by
      rw [hnone]
      simp only [Option.getD_none]
      omega
    simp only [processEntry, hk, if_neg hmem, if_neg hcut]

/-- Witness for the amended C7: the collected `preEntry` is inside the
window, and `noTimeEntry` (no parseable time) is collected with
`published = now`. -/
theorem C7_amended_window_witness :
    (1000000 : Int) - 172800 ≤
      (mkRec (fun s => s) 1000000 preEntry (("http://pre.com/p").data)).published ∧
    (processEntry (fun s => s) 1000000 (1000000 - 172800) ⟨[], []⟩ noTimeEntry).collected =
      [] ++ [mkRec (fun s => s) 1000000 noTimeEntry (("http://notime.com/n").data)] := by
  constructor
  · exact C7_amended_window.1 (fun s => s) 1000000 172800 [preEntry]
      (mkRec (fun s => s) 1000000 preEntry (("http://pre.com/p").data)) (by decide)
  · exact C7_amended_window.2 (fun s => s) 1000000 172800 ⟨[], []⟩ noTimeEntry
      (("http://notime.com/n").data) (by decide) rfl rfl (by decide)

/-- Step preservation: once `k` is seen and no collected item has key `k`,
this stays true (a later entry with key `k` is skipped outright). -/
theorem k_seen_inv_step (gt : Str → Str) (now cutoff : Int)
    (st : CollectState) (e : RawEntry) (k : Str)
    (h1 : k ∈ st.seen_urls) (h2 : ∀ r ∈ st.collected, r.key ≠ k) :
    k ∈ (processEntry gt now cutoff st e).seen_urls ∧
    ∀ r ∈ (processEntry gt now cutoff st e).collected, r.key ≠ k := by
  cases hk : entryKey e with
  | none => simp only [processEntry, hk]; exact ⟨h1, h2⟩
  | some k2 =>
    by_cases hmem : k2 ∈ st.seen_urls
    · simp only [processEntry, hk, if_pos hmem]; exact ⟨h1, h2⟩
    · have hkk : k2 ≠ k := fun h => hmem (h ▸ h1)
      by_cases hcut : e.published_parsed.getD now < cutoff
      · simp only [processEntry, hk, if_neg hmem, if_pos hcut]
        exact ⟨List.mem_cons_of_mem _ h1, h2⟩
      · simp only [processEntry, hk, if_neg hmem, if_neg hcut]
        refine ⟨List.mem_cons_of_mem _ h1, ?_⟩
        intro r hr
        rcases List.mem_append.mp hr with hh | hh
        · exact h2 r hh
        · simp only [List.mem_singleton] at hh
          subst hh
          simpa [mkRec] using hkk

/-- Step preservation: before any entry with key `k` is processed, `k` is
unseen and no collected item has key `k`. -/
theorem notk_inv_step (gt : Str → Str) (now cutoff : Int)
    (st : CollectState) (e : RawEntry) (k : Str)
    (hne : entryKey e ≠ some k)
    (h1 : k ∉ st.seen_urls) (h2 : ∀ r ∈ st.collected, r.key ≠ k) :
    k ∉ (processEntry gt now cutoff st e).seen_urls ∧
    ∀ r ∈ (processEntry gt now cutoff st e).collected, r.key ≠ k := by
  cases hk : entryKey e with
  | none => simp only [processEntry, hk]; exact ⟨h1, h2⟩
  | some k2 =>
    have hkk : k2 ≠ k := fun h => hne (h ▸ hk)
    by_cases hmem : k2 ∈ st.seen_urls
    · simp only [processEntry, hk, if_pos hmem]; exact ⟨h1, h2⟩
    · have hseen : k ∉ k2 :: st.seen_urls := by
        intro hmm
        rcases List.mem_cons.mp hmm with h | h
        · exact hkk h.symm
        · exact h1 h
      by_cases hcut : e.published_parsed.getD now < cutoff
      · simp only [processEntry, hk, if_neg hmem, if_pos hcut]
        exact ⟨hseen, h2⟩
      · simp only [processEntry, hk, if_neg hmem, if_neg hcut]
        refine ⟨hseen, ?_⟩
        intro r hr
        rcases List.mem_append.mp hr with hh | hh
        · exact h2 r hh
        · simp only [List.mem_singleton] at hh
          subst hh
          simpa [mkRec] using hkk

/-- Claim C10: the identity key is recorded in the seen set before the
time filter runs, so when the first entry carrying key `k` is dropped by
the filter, no later entry with key `k` — in-window or not — can be
collected: the output contains no item with that key. -/
theorem C10_seen_before_filter (gt : Str → Str) (now window : Int)
    (pre post : List RawEntry) (e : RawEntry) (k : Str)
    (hk : entryKey e = some k)
    (hpre : ∀ e1 ∈ pre, entryKey e1 ≠ some k)
    (hdrop : e.published_parsed.getD now < now - window) :
    ∀ r ∈ run_collect gt now window (pre ++ e :: post), r.key ≠ k := by
  intro r hr
  unfold run_collect at hr
  rw [List.foldl_append, List.foldl_cons] at hr
  have hA : k ∉ (pre.foldl (processEntry gt now (now - window)) ⟨[], []⟩).seen_urls ∧
      ∀ r' ∈ (pre.foldl (processEntry gt now (now - window)) ⟨[], []⟩).collected,
        r'.key ≠ k :=
    foldl_preserve _
      (fun st => k ∉ st.seen_urls ∧ ∀ r' ∈ st.collected, r'.key ≠ k)
      pre ⟨[], []⟩ ⟨by simp, by simp⟩
      (fun st e1 hmem h =>
        notk_inv_step gt now (now - window) st e1 k (hpre e1 hmem) h.1 h.2)
  have hB : processEntry gt now (now - window)
      (pre.foldl (processEntry gt now (now - window)) ⟨[], []⟩) e =
      ⟨k :: (pre.foldl (processEntry gt now (now - window)) ⟨[], []⟩).seen_urls,
       (pre.foldl (processEntry gt now (now - window)) ⟨[], []⟩).collected⟩ := by
    simp only [processEntry, hk, if_neg hA.1, if_pos hdrop]
  rw [hB] at hr
  have hC := foldl_preserve _
    (fun st => k ∈ st.seen_urls ∧ ∀ r' ∈ st.collected, r'.key ≠ k)
    post
    ⟨k :: (pre.foldl (processEntry gt now (now - window)) ⟨[], []⟩).seen_urls,
     (pre.foldl (processEntry gt now (now - window)) ⟨[], []⟩).collected⟩
    ⟨List.mem_cons_self _ _, hA.2⟩
    (fun st e1 _ h => k_seen_inv_step gt now (now - window) st e1 k h.1 h.2)
  exact hC.2 r hr

/-- Witness for C10: `staleEntry` (key `http://dup.com/x`, out of window)
poisons the key, so the in-window `freshEntry` with the same key is also
discarded; the only collected item is `preEntry`'s record, whose key
differs. -/
theorem C10_seen_before_filter_witness :
    (mkRec (fun s => s) 1000000 preEntry (("http://pre.com/p").data)).key ≠
      ("http://dup.com/x").data :=
  C10_seen_before_filter (fun s => s) 1000000 172800 [preEntry] [freshEntry]
    staleEntry (("http://dup.com/x").data) rfl (by decide) (by decide)
    (mkRec (fun s => s) 1000000 preEntry (("http://pre.com/p").data)) (by decide)

/-- `strLe` is reflexive. -/
theorem strLe_refl (s : Str) : strLe s s = true := by
  induction s with
  | nil => rfl
  | cons a t ih => simp [strLe, ih]

/-- `strLe` is total. -/
theorem strLe_total (a b : Str) : (strLe a b || strLe b a) = true := by
  induction a generalizing b with
  | nil => simp [strLe]
  | cons x xs ih =>
    cases b with
    | nil => simp [strLe]
    | cons y ys =>
      simp only [strLe]
      rcases lt_trichotomy x y with h | h | h
      · simp [h]
      · subst h
        simp [ih]
      · simp [h, lt_asymm h]

/-- `strLe` is transitive. -/
theorem strLe_trans (a b c : Str) (hab : strLe a b = true) (hbc : strLe b c = true) :
    strLe a c = true := by
  induction a generalizing b c with
  | nil => rfl
  | cons x xs ih =>
    cases b with
    | nil => simp [strLe] at hab
    | cons y ys =>
      cases c with
      | nil => simp [strLe] at hbc
      | cons z zs =>
        simp only [strLe] at hab hbc ⊢
        by_cases hxy : x < y
        · by_cases hyz : y < z
          · simp [lt_trans hxy hyz]
          · by_cases hzy : z < y
            · simp [hyz, hzy] at hbc
            · have hy : y = z := le_antisymm (not_lt.mp hzy) (not_lt.mp hyz)
              subst hy
              simp [hxy]
        · by_cases hyx : y < x
          · simp [hxy, hyx] at hab
          · have hx : x = y := le_antisymm (not_lt.mp hyx) (not_lt.mp hxy)
            subst hx
            simp only [lt_irrefl, if_false] at hab
            by_cases hxz : x < z
            · simp [hxz]
            · by_cases hzx : z < x
              · simp [hxz, hzx] at hbc
              · have hz : x = z := le_antisymm (not_lt.mp hzx) (not_lt.mp hxz)
                subst hz
                simp only [lt_irrefl, if_false] at hbc ⊢
                exact ih ys zs hab hbc

/-- `keyLE` is transitive. -/
theorem keyLE_trans (a b c : Enriched) (h1 : keyLE a b = true) (h2 : keyLE b c = true) :
    keyLE a c = true := by
  unfold keyLE at h1 h2 ⊢
  split_ifs at h1 h2 ⊢ <;>
    first
      | rfl
      | omega
      | exact absurd h1 Bool.false_ne_true
      | exact absurd h2 Bool.false_ne_true
      | exact strLe_trans _ _ _ h2 h1

/-- `keyLE` is total. -/
theorem keyLE_total (a b : Enriched) : (keyLE a b || keyLE b a) = true := by
  unfold keyLE
  by_cases h1 : b.score < a.score
  · simp [h1]
  · by_cases h2 : a.score < b.score
    · simp [h1, h2]
    · rw [if_neg h1, if_neg h2, if_neg h2, if_neg h1]
      exact strLe_total _ _

/-- Equal sort keys are `keyLE`-equivalent. -/
theorem keyLE_of_eq (a b : Enriched) (hs : a.score = b.score)
    (hp : a.published = b.published) : keyLE a b = true := by
  unfold keyLE
  simp [hs, hp, strLe_refl]

/-- Claim C5: the ranking step is a permutation sorted by score
descending with ties broken by published (ISO string, hence chronological)
descending; it is stable — a pair with equal score and equal publish time
keeps its relative input order — and re-sorting an already-sorted list
changes nothing. -/
theorem C5_ranking (l : List Enriched) :
    List.Perm (rank_items l) l ∧
    List.Pairwise (fun a b => keyLE a b = true) (rank_items l) ∧
    (∀ a b : Enriched, a.score = b.score → a.published = b.published →
      List.Sublist [a, b] l → List.Sublist [a, b] (rank_items l)) ∧
    rank_items (rank_items l) = rank_items l := by
  refine ⟨List.mergeSort_perm l keyLE,
    List.sorted_mergeSort keyLE_trans keyLE_total l, ?_, ?_⟩
  · intro a b hs hp hsub
    exact List.pair_sublist_mergeSort keyLE_trans keyLE_total
      (keyLE_of_eq a b hs hp) hsub
  · exact List.mergeSort_of_sorted (List.sorted_mergeSort keyLE_trans keyLE_total l)

/-- Witness for C5: two items with equal score and publish time stay in
input order after ranking. -/
theorem C5_ranking_witness :
    List.Sublist [eItemA, eItemB] (rank_items [eItemA, eItemB]) :=
  (C5_ranking [eItemA, eItemB]).2.2.1 eItemA eItemB rfl rfl (List.Sublist.refl _)
